import Mathlib

/-!
Shallow embedding of the admissions-flow engine
(`models.py`, `utils.py`, `flow.py`, `controllers.py`).

Python mutable objects are modelled as immutable structures with explicit
functional update; Python exceptions as `Except String`; Python sets as
`Finset String`; payload dictionaries as association lists from field name
to `Value`.  The repository's only condition callables are
`check_iq_score_condition` and `check_interview_condition` (`utils.py`),
so a task condition is modelled as a closed variant `Condition` rather
than an opaque function, which keeps every structure decidable.
-/

namespace Admissions

/-- Status enum from `models.py`. -/
inductive Status where
  | completed
  | notCompleted
  | inProgress
  | accepted
  | rejected
deriving DecidableEq

/-- Payload values: the JSON payloads exercised by the engine carry strings
and integers. -/
inductive Value where
  | str (s : String)
  | int (n : Int)
deriving DecidableEq

/-- Python truthiness of a payload value: empty string and zero are falsy. -/
def Value.truthy : Value → Bool
  | .str s => s ≠ ""
  | .int n => n ≠ 0

/-- Python truthiness of an optional payload value (`None` is falsy). -/
def optTruthy : Option Value → Bool
  | none => false
  | some v => v.truthy

/-- The closed set of condition callables defined in `utils.py`. -/
inductive Condition where
  | iqScore
  | interview
deriving DecidableEq

/-- Condition evaluation.  `check_iq_score_condition(score)` is
`score > 75` (a TypeError in Python on a non-integer argument; such calls
never occur in the modelled flows and are mapped to `false`);
`check_interview_condition(status)` is `status == "passed_interview"`,
which in Python is `False` on any non-string argument. -/
def Condition.eval : Condition → Option Value → Bool
  | .iqScore, some (.int n) => n > 75
  | .iqScore, _ => false
  | .interview, some (.str s) => s = "passed_interview"
  | .interview, _ => false

/-- Task from `models.py` (`Task.__init__`). -/
structure Task where
  task_name : String
  status : Status
  condition : Option Condition
  required_fields : List String
deriving DecidableEq

/-- Task construction: status starts NOT_COMPLETED; `required_fields`
defaults to the empty list (`required_fields if required_fields else []`). -/
def Task.make (task_name : String) (condition : Option Condition)
    (required_fields : List String) : Task :=
  { task_name := task_name
    status := Status.notCompleted
    condition := condition
    required_fields := required_fields }

/-- The `check_completion` method of `Task`: evaluates the condition on
`condition_var` and sets the status to REJECTED or COMPLETED.  In the
source it is only invoked when `condition` is set; with no condition the
Python call would raise, and the task is returned unchanged here. -/
def Task.check_completion (t : Task) (condition_var : Option Value) : Task :=
  match t.condition with
  | some c => if c.eval condition_var then { t with status := Status.completed }
              else { t with status := Status.rejected }
  | none => t

/-- Step from `models.py` (`Step.__init__`). -/
structure Step where
  step_name : String
  tasks : List Task
  status : Status
  current_task_index : Nat
  tasks_names : Finset String
deriving DecidableEq

/-- Step construction: `tasks if tasks else [Task(step_name)]` (both `None`
and the empty list are falsy), status NOT_COMPLETED, task cursor 0, and
`tasks_names` built as the set of the task names. -/
def Step.make (step_name : String) (tasks : Option (List Task)) : Step :=
  let ts := match tasks with
    | some l => if l.isEmpty then [Task.make step_name none []] else l
    | none => [Task.make step_name none []]
  { step_name := step_name
    tasks := ts
    status := Status.notCompleted
    current_task_index := 0
    tasks_names := (ts.map Task.task_name).toFinset }

/-- User from `models.py` (`User.__init__`). -/
structure User where
  user_id : String
  email : String
  steps : List Step
  status : Status
  current_step_index : Nat
  steps_names : Finset String
deriving DecidableEq

/-- User construction: empty step list, status IN_PROGRESS, cursor 0. -/
def User.init (user_id email : String) : User :=
  { user_id := user_id
    email := email
    steps := []
    status := Status.inProgress
    current_step_index := 0
    steps_names := ∅ }

/-- The `index is None` branch of `User.add_step`: append and register the
name.  This branch has no failure path in the source. -/
def User.append_step (u : User) (step : Step) : User :=
  { u with steps := u.steps ++ [step]
           steps_names := insert step.step_name u.steps_names }

/-- The `add_step` method of `User`: insert at the index when it is in
`[0, len(steps)]`, append when no index is given, raise IndexError
otherwise.  The name is registered only after a successful insertion. -/
def User.add_step (u : User) (step : Step) (index : Option Int) :
    Except String User :=
  match index with
  | none => Except.ok (u.append_step step)
  | some i =>
    if 0 ≤ i ∧ i ≤ (u.steps.length : Int) then
      Except.ok { u with
        steps := u.steps.insertIdx i.toNat step
        steps_names := insert step.step_name u.steps_names }
    else
      Except.error
        "Index out of range. Must be between 0 and the number of existing steps."

/-- The by-name search loop of `User.remove_step`: remove the first step
with the given name, returning the remaining list and the removed step. -/
def removeByName : List Step → String → Option (List Step × Step)
  | [], _ => none
  | s :: rest, n =>
    if s.step_name = n then some (rest, s)
    else match removeByName rest n with
      | some (l, r) => some (s :: l, r)
      | none => none

/-- The `remove_step` method of `User`: by index (range `[0, len)`), else
by (truthy) name, else a ValueError.  All raises happen before any
mutation of `steps` or `steps_names`. -/
def User.remove_step (u : User) (step_name : Option String)
    (index : Option Int) : Except String (User × Step) :=
  match index with
  | some i =>
    if h : 0 ≤ i ∧ i.toNat < u.steps.length then
      let s := u.steps.get ⟨i.toNat, h.2⟩
      Except.ok ({ u with
        steps := u.steps.eraseIdx i.toNat
        steps_names := u.steps_names.erase s.step_name }, s)
    else Except.error "Index out of range"
  | none =>
    match step_name with
    | some n =>
      if n = "" then Except.error "Either step_name or index must be provided"
      else match removeByName u.steps n with
        | some (l, r) =>
          Except.ok ({ u with
            steps := l
            steps_names := u.steps_names.erase n }, r)
        | none => Except.error ("Step with name " ++ n ++ " not found")
    | none => Except.error "Either step_name or index must be provided"

/-- The by-name search loop of `User.modify_step`: replace the first step
with the given name. -/
def replaceByName : List Step → String → Step → Option (List Step)
  | [], _, _ => none
  | s :: rest, n, newStep =>
    if s.step_name = n then some (newStep :: rest)
    else match replaceByName rest n newStep with
      | some l => some (s :: l)
      | none => none

/-- The `elif step_name: ... else: raise` part of `User.modify_step`:
replace the first step carrying the (truthy) name, de-registering the
searched name and registering the new one; ValueError otherwise. -/
def User.modify_step_by_name (u : User) (new_step : Step)
    (step_name : Option String) : Except String User :=
  match step_name with
  | some n =>
    if n = "" then Except.error "Either step_name or index must be provided"
    else match replaceByName u.steps n new_step with
      | some l =>
        Except.ok { u with
          steps := l
          steps_names := insert new_step.step_name (u.steps_names.erase n) }
      | none => Except.error ("Step with name " ++ n ++ " not found")
  | none => Except.error "Either step_name or index must be provided"

/-- The `modify_step` method of `User`: when the index is given and in
range (`if index is not None and 0 <= index < len(self.steps)`), swap in
the new step at that index, de-registering the old name and registering
the new one; otherwise fall through to the by-name branch. -/
def User.modify_step (u : User) (new_step : Step) (step_name : Option String)
    (index : Option Int) : Except String User :=
  match index with
  | some i =>
    if h : 0 ≤ i ∧ i.toNat < u.steps.length then
      Except.ok { u with
        steps := u.steps.set i.toNat new_step
        steps_names := insert new_step.step_name
          (u.steps_names.erase (u.steps.get ⟨i.toNat, h.2⟩).step_name) }
    else u.modify_step_by_name new_step step_name
  | none => u.modify_step_by_name new_step step_name
/-- Boolean prefix test on character lists (first argument: haystack). -/
def listHasPre : List Char → List Char → Bool
  | _, [] => true
  | [], _ :: _ => false
  | a :: as, b :: bs => a = b && listHasPre as bs

/-- Boolean substring occurrence test on character lists. -/
def listHasSub : List Char → List Char → Bool
  | [], needle => needle.isEmpty
  | a :: as, needle => listHasPre (a :: as) needle || listHasSub as needle

/-- Python `needle in hay` on strings. -/
def strContains (hay needle : String) : Bool :=
  listHasSub hay.toList needle.toList

/-- Python `str.isdigit` (restricted to its ASCII behaviour): non-empty
and all characters are decimal digits. -/
def pyIsDigit (s : String) : Bool :=
  s ≠ "" && s.toList.all Char.isDigit

/-- Python `str.isalpha` (restricted to its ASCII behaviour): non-empty
and all characters are letters. -/
def pyIsAlpha (s : String) : Bool :=
  s ≠ "" && s.toList.all Char.isAlpha

/-- Whitespace stripped by Python `int(...)` (ASCII subset). -/
def isPySpace (c : Char) : Bool :=
  c = ' ' || c = '\t' || c = '\n' || c = '\r'

/-- Numeric value of a digit list (most significant first). -/
def digitsToNat (l : List Char) : Nat :=
  l.foldl (fun a c => a * 10 + (c.toNat - 48)) 0

/-- Digit-group scanner for Python integer literals: after a first digit,
accepts further digits, with single underscores allowed between digits.
Accumulates the digits seen so far (in reverse). -/
def intDigitsAux : List Char → List Char → Option (List Char)
  | [], acc => some acc.reverse
  | c :: rest, acc =>
    if c.isDigit then intDigitsAux rest (c :: acc)
    else if c = '_' then
      match rest with
      | d :: rest2 =>
        if d.isDigit then intDigitsAux rest2 (d :: acc) else none
      | [] => none
    else none
termination_by l _ => l.length

/-- Digit part of a Python integer literal: `[0-9]+(_[0-9]+)*`. -/
def intDigits : List Char → Option (List Char)
  | [] => none
  | c :: rest => if c.isDigit then intDigitsAux rest [c] else none

/-- Python `int(s)` on a string: strip whitespace, optional sign, digits
with optional single underscores between them. -/
def parsePyInt (s : String) : Option Int :=
  let l := ((s.toList.dropWhile isPySpace).reverse.dropWhile isPySpace).reverse
  match l with
  | '+' :: rest => (intDigits rest).map (fun ds => (digitsToNat ds : Int))
  | '-' :: rest => (intDigits rest).map (fun ds => -(digitsToNat ds : Int))
  | _ => (intDigits l).map (fun ds => (digitsToNat ds : Int))

/-- Python `int(value)` on a payload value: an integer is returned as is,
a string is parsed (ValueError is modelled as `none`). -/
def parsePyIntValue : Value → Option Int
  | .int n => some n
  | .str s => parsePyInt s

/-- Character class of the local part of the email pattern
`^[a-zA-Z0-9_.+-]+@[a-zA-Z0-9-]+\.[a-zA-Z0-9-.]+$`. -/
def isLocalChar (c : Char) : Bool :=
  c.isAlphanum || c = '_' || c = '.' || c = '+' || c = '-'

/-- Character class of the domain part before its first dot. -/
def isDomChar (c : Char) : Bool :=
  c.isAlphanum || c = '-'

/-- Character class of the part after the domain's first dot. -/
def isTldChar (c : Char) : Bool :=
  c.isAlphanum || c = '-' || c = '.'

/-- Structural split of a character list on a separator character, with
empty parts kept (the splitting `re.match`, `strptime` and the format
checks below need). -/
def splitChars (sep : Char) : List Char → List (List Char)
  | [] => [[]]
  | c :: rest =>
    if c = sep then [] :: splitChars sep rest
    else match splitChars sep rest with
      | g :: gs => (c :: g) :: gs
      | [] => [[c]]

/-- The email regular expression of `utils.validate_field`: one `@` with a
non-empty run of local characters before it; after it a non-empty dot-free
run of domain characters, a dot, and a non-empty run of tail characters. -/
def emailMatches (s : String) : Bool :=
  match splitChars '@' s.toList with
  | [localPart, rest] =>
    !localPart.isEmpty && localPart.all isLocalChar &&
    (match splitChars '.' rest with
     | dom :: tld1 :: tlds =>
       let tld := List.intercalate ['.'] (tld1 :: tlds)
       !dom.isEmpty && dom.all isDomChar &&
       !tld.isEmpty && tld.all isTldChar
     | _ => false)
  | _ => false

/-- Leap-year rule of the Gregorian calendar, as used by `datetime`. -/
def isLeapYear (y : Nat) : Bool :=
  y % 4 = 0 && (y % 100 ≠ 0 || y % 400 = 0)

/-- Days in a month, as validated by `datetime`. -/
def daysInMonth (m y : Nat) : Nat :=
  if m = 2 then (if isLeapYear y then 29 else 28)
  else if m = 4 || m = 6 || m = 9 || m = 11 then 30
  else 31

/-- Numeric field of a `strptime` format: non-empty, all digits, at most
`maxLen` characters. -/
def numField (l : List Char) (maxLen : Nat) : Option Nat :=
  if l ≠ [] ∧ l.length ≤ maxLen ∧ l.all Char.isDigit then
    some (digitsToNat l)
  else none

/-- Modelled `datetime.strptime(value, "%Y-%m-%d")` success on a character
list: year of one to four digits in `[1, 9999]`, month and day of one or
two digits, and a valid calendar date. -/
def dateOkChars (l : List Char) : Bool :=
  match splitChars '-' l with
  | [ys, ms, ds] =>
    match numField ys 4, numField ms 2, numField ds 2 with
    | some y, some m, some d =>
      1 ≤ y && y ≤ 9999 && 1 ≤ m && m ≤ 12 && 1 ≤ d && d ≤ daysInMonth m y
    | _, _, _ => false
  | _ => false

/-- Modelled `datetime.strptime(value, "%Y-%m-%d")` success. -/
def dateOk (s : String) : Bool :=
  dateOkChars s.toList

/-- Modelled `datetime.strptime(value, "%Y-%m-%d %H:%M:%S")` success. -/
def timestampOk (s : String) : Bool :=
  match splitChars ' ' s.toList with
  | [d, t] =>
    dateOkChars d &&
    (match splitChars ':' t with
     | [hs, ms, ss] =>
       match numField hs 2, numField ms 2, numField ss 2 with
       | some h, some m, some s2 => h ≤ 23 && m ≤ 59 && s2 ≤ 61
       | _, _, _ => false
     | _ => false)
  | _ => false

/-- Email branch of `validate_field`.  With a non-string value Python
raises TypeError inside `re.match`; the modelled flows never reach that
case and it is mapped to a pass. -/
def emailBranch : Value → Option String
  | .str s => if emailMatches s then none else some "Invalid email format."
  | .int _ => none

/-- Date branch of `validate_field` (`"date" in field_name`).  A
non-string value raises TypeError in Python; mapped to a pass, never
reached in the modelled flows. -/
def dateBranch : Value → Option String
  | .str s => if dateOk s then none else some "Date must be in YYYY-MM-DD format."
  | .int _ => none

/-- Timestamp branch of `validate_field`. -/
def timestampBranch : Value → Option String
  | .str s =>
    if timestampOk s then none
    else some "Timestamp must be in YYYY-MM-DD HH:MM:SS format."
  | .int _ => none

/-- Passport branch of `validate_field`: all-digit or all-alphabetic. -/
def passportBranch : Value → Option String
  | .str s =>
    if pyIsDigit s || pyIsAlpha s then none
    else some "Passport number must contain only digits."
  | .int _ => none

/-- Name branch of `validate_field` (`"name" in field_name`). -/
def nameBranch : Value → Option String
  | .str s =>
    if pyIsAlpha s then none
    else some "Name fields must contain only alphabetic characters."
  | .int _ => none

/-- Score branch of `validate_field`: `int(value)` in `[0, 100]` passes,
out of range gives the between-message, and a ValueError from `int(...)`
gives the valid-integer-message. -/
def scoreCheck (v : Value) : Option String :=
  match parsePyIntValue v with
  | some n =>
    if 0 ≤ n ∧ n ≤ 100 then none else some "Score must be between 0 and 100."
  | none => some "Score must be a valid integer between 0 and 100."

/-- The field validator `utils.validate_field`: dispatch on the field name
in source order, with a final catch-all that rejects the empty-string
value. -/
def validate_field (field_name : String) (value : Value) : Option String :=
  if field_name = "email" then emailBranch value
  else if strContains field_name "date" then dateBranch value
  else if field_name = "timestamp" then timestampBranch value
  else if field_name = "passport_number" then passportBranch value
  else if strContains field_name "name" then nameBranch value
  else if field_name = "score" then scoreCheck value
  else if value = Value.str "" then
    some ("Missing value for field - " ++ field_name)
  else none

/-- Task-construction data for custom flows (`utils.create_task_list`).
The `task_name` is optional in the request data; a condition in custom
data is modelled over the repository's closed condition set. -/
structure TaskData where
  task_name : Option String
  required_fields : List String
  condition : Option Condition

/-- Step-construction data for custom flows. -/
structure StepData where
  step_name : String
  tasks : List TaskData

/-- The loop of `utils.create_task_list`: builds tasks in order and fails
on the first task whose name is missing or empty (`if not task_name`). -/
def create_task_list : List TaskData → Except String (List Task)
  | [] => Except.ok []
  | td :: rest =>
    match td.task_name with
    | some n =>
      if n = "" then Except.error "Each task must have a task_name"
      else
        (create_task_list rest).map
          (fun ts => Task.make n td.condition td.required_fields :: ts)
    | none => Except.error "Each task must have a task_name"

/-- The fixed default admissions flow built by `flow.create_admissions_flow`
when no custom step data is supplied. -/
def default_admissions_steps : List Step :=
  [Step.make "Personal Details Form"
     (some [Task.make "Personal Details Form" none
              ["first_name", "last_name", "email", "timestamp"]]),
   Step.make "IQ Test"
     (some [Task.make "IQ Test" (some Condition.iqScore)
              ["test_id", "score", "timestamp", "condition_var"]]),
   Step.make "Interview"
     (some [Task.make "schedule interview" none ["interview_date"],
            Task.make "perform interview" (some Condition.interview)
              ["interview_date", "interviewer_id", "decision", "condition_var"]]),
   Step.make "Sign Contract"
     (some [Task.make "upload identification document" none
              ["passport_number", "timestamp"],
            Task.make "sign contract" none ["timestamp"]]),
   Step.make "Payment"
     (some [Task.make "Payment" none ["payment_id", "timestamp"]]),
   Step.make "Join Slack"
     (some [Task.make "Join Slack" none ["email", "timestamp"]])]

/-- The custom branch of `create_admissions_flow`: builds each step from
its data, propagating the first task-construction failure. -/
def buildCustomSteps : List StepData → Except String (List Step)
  | [] => Except.ok []
  | sd :: rest => do
    let ts ← create_task_list sd.tasks
    let rest2 ← buildCustomSteps rest
    Except.ok (Step.make sd.step_name (some ts) :: rest2)

/-- The flow constructor `flow.create_admissions_flow`: a truthy (non-empty)
custom definition builds the steps from it; otherwise the default flow is
returned. -/
def create_admissions_flow (custom : Option (List StepData)) :
    Except String (List Step) :=
  match custom with
  | some l =>
    if l.isEmpty then Except.ok default_admissions_steps
    else buildCustomSteps l
  | none => Except.ok default_admissions_steps

/-- The helper `flow.get_current_step_and_task`: reads the current step
and its current task; `none` models the IndexError a stale cursor would
raise. -/
def get_current_step_and_task (u : User) : Option (Step × Admissions.Task) :=
  match u.steps[u.current_step_index]? with
  | none => none
  | some s =>
    match s.tasks[s.current_task_index]? with
    | none => none
    | some t => some (s, t)

/-- The progression algorithm `flow.progress`: evaluate the condition on
the current task when one is set, then either propagate rejection to the
step and the user (returning `False`), advance the task cursor, or close
the step and advance the step cursor or accept the user (returning
`True`).  `none` models an IndexError from a stale cursor. -/
def progress (u : User) (condition_var : Option Value) :
    Option (User × Bool) :=
  match get_current_step_and_task u with
  | none => none
  | some (s, t) =>
    let t2 := if t.condition.isSome then t.check_completion condition_var else t
    let s2 := { s with tasks := s.tasks.set s.current_task_index t2 }
    if t2.status = Status.rejected then
      let s3 := { s2 with status := Status.rejected }
      some ({ u with steps := u.steps.set u.current_step_index s3
                     status := Status.rejected }, false)
    else if s2.current_task_index < s2.tasks.length - 1 then
      let s3 := { s2 with current_task_index := s2.current_task_index + 1 }
      some ({ u with steps := u.steps.set u.current_step_index s3 }, true)
    else
      let s3 := { s2 with status := Status.completed }
      let u2 := { u with steps := u.steps.set u.current_step_index s3 }
      if u2.current_step_index < u2.steps.length - 1 then
        some ({ u2 with current_step_index := u2.current_step_index + 1 }, true)
      else
        some ({ u2 with status := Status.accepted }, true)

/-- Wrapper responses are a message with an HTTP status code. -/
abbrev Resp := String × Nat

/-- The route-level wrapper `flow.add_step`: build the step, delegate to
the engine, and turn an IndexError into a 400 response leaving the user
untouched. -/
def flow_add_step (u : User) (step_name : String) (tasks : Option (List Task))
    (index : Option Int) : Resp × User :=
  let step := Step.make step_name tasks
  match u.add_step step index with
  | Except.ok u2 => (("Step " ++ step_name ++ " added", 200), u2)
  | Except.error e => ((e, 400), u)

/-- The route-level wrapper `flow.remove_step`. -/
def flow_remove_step (u : User) (step_name : Option String)
    (index : Option Int) : Resp × User :=
  match u.remove_step step_name index with
  | Except.ok (u2, _) => (("Step removed successfully", 200), u2)
  | Except.error e => ((e, 400), u)

/-- The route-level wrapper `flow.modify_step`. -/
def flow_modify_step (u : User) (new_step_name : String)
    (step_name : Option String) (index : Option Int)
    (tasks : Option (List Task)) : Resp × User :=
  let new_step := Step.make new_step_name tasks
  match u.modify_step new_step step_name index with
  | Except.ok u2 => (("Step modified to " ++ new_step_name, 200), u2)
  | Except.error e => ((e, 400), u)

/-- Iterated progression: run `progress` once per supplied condition
value, in order. -/
def runProgress : User → List (Option Value) → Option User
  | u, [] => some u
  | u, cv :: rest =>
    match progress u cv with
    | some (u2, _) => runProgress u2 rest
    | none => none

/-- The user-construction loop of `controllers.create_user`: attach each
step with `User.add_step` (no index, which cannot fail). -/
def addStepsInOrder (u : User) : List Step → User
  | [] => u
  | s :: rest => addStepsInOrder (u.append_step s) rest
/-- Task payloads: JSON objects modelled as association lists. -/
abbrev Payload := List (String × Value)

/-- Dictionary lookup on a payload. -/
def pLookup (p : Payload) (k : String) : Option Value :=
  (p.find? (fun kv => kv.1 = k)).map (fun kv => kv.2)

/-- The required fields of a task that are absent from the payload, in the
order the task declares them (`controllers.validate_task_payload`). -/
def missingFields (t : Task) (p : Payload) : List String :=
  t.required_fields.filter (fun f => (pLookup p f).isNone)

/-- The validation loop of `controllers.validate_task_payload`: run the
field validator over the fields in order and stop at the first failure.
A field absent from the payload would be a KeyError in Python; the loop
is only entered when no field is missing. -/
def first_field_error : List String → Payload → Option String
  | [], _ => none
  | f :: rest, p =>
    match pLookup p f with
    | none => none
    | some v =>
      match validate_field f v with
      | some e => some e
      | none => first_field_error rest p

/-- The payload validator `controllers.validate_task_payload`: report all
missing required fields together, otherwise return the first field
validation failure, otherwise `None`. -/
def validate_task_payload (t : Task) (p : Payload) : Option Resp :=
  let missing := missingFields t p
  if missing.isEmpty then
    match first_field_error t.required_fields p with
    | some e => some (e, 400)
    | none => none
  else
    some ("Missing required fields: " ++ String.intercalate ", " missing, 400)

/-- The task-completion core `controllers.complete_task_process`: validate
the payload, require a truthy `condition_var` entry when the task has a
condition, resolve the condition value from the payload, and call
`progress`; a `False` from `progress` is reported as a 500 condition
failure.  `none` models an uncaught IndexError inside `progress`. -/
def complete_task_process (u : User) (t : Task) (p : Payload) :
    Option (Resp × User) :=
  match validate_task_payload t p with
  | some r => some (r, u)
  | none =>
    let cvar := pLookup p "condition_var"
    if t.condition.isSome && !(optTruthy cvar) then
      some (("Task " ++ t.task_name ++
        " has condition but condition_var was not provided", 400), u)
    else
      let condition_value : Option Value :=
        if optTruthy cvar then
          match cvar with
          | some (Value.str s) => pLookup p s
          | _ => none
        else none
      match progress u condition_value with
      | none => none
      | some (u2, b) =>
        if b then some (("Task marked as completed", 200), u2)
        else some (("Condition failed", 500), u2)

/-- The route handler `controllers.complete_task`, after user lookup: a
falsy payload, an unknown step name, a non-current step, an unknown task
name, and a non-current task are each rejected in that order; a current
task already COMPLETED short-circuits before any condition evaluation;
otherwise the completion core runs. -/
def complete_task (u : User) (step_name task_name : String) (p : Payload) :
    Option (Resp × User) :=
  if p.isEmpty then some (("Task payload is required", 400), u)
  else if step_name ∈ u.steps_names then
    match u.steps[u.current_step_index]? with
    | none => none
    | some current_step =>
      if current_step.step_name ≠ step_name then
        some (("Step " ++ step_name ++ " is not the current step", 400), u)
      else if task_name ∈ current_step.tasks_names then
        match current_step.tasks[current_step.current_task_index]? with
        | none => none
        | some current_task =>
          if current_task.task_name ≠ task_name then
            some (("Task " ++ task_name ++ " is not the current task", 400), u)
          else if current_task.status = Status.completed then
            some (("Task already completed", 400), u)
          else complete_task_process u current_task p
      else some (("Task not found.", 404), u)
  else some (("This step do not exist", 404), u)

/-- The route handler `controllers.remove_step_from_user`, after user
lookup: an unknown step name is rejected first; removing the step the
cursor points to (by index, or by name) is rejected as an in-progress
removal; otherwise the request is delegated to `flow.remove_step`.  The
current step is only read (and can only raise, modelled `none`) when a
name was supplied and found. -/
def remove_step_from_user (u : User) (step_name : Option String)
    (index : Option Int) : Option (Resp × User) :=
  match step_name with
  | some n =>
    if n ∈ u.steps_names then
      match u.steps[u.current_step_index]? with
      | none => none
      | some cur =>
        if index = some (u.current_step_index : Int) ∨ cur.step_name = n then
          some (("Cannot remove an in-progress step", 400), u)
        else some (flow_remove_step u (some n) index)
    else some (("This step do not exist", 400), u)
  | none =>
    if index = some (u.current_step_index : Int) then
      some (("Cannot remove an in-progress step", 400), u)
    else some (flow_remove_step u none index)

/-- The process-wide state of `controllers`: the id-to-user mapping and
the set of registered emails. -/
structure AppState where
  users_db : List (String × User)
  users_emails : Finset String
deriving DecidableEq

/-- Lookup in the user mapping. -/
def dbFind (db : List (String × User)) (uid : String) : Option User :=
  (db.find? (fun kv => kv.1 = uid)).map (fun kv => kv.2)

/-- Pointwise update of the user mapping. -/
def dbSet (db : List (String × User)) (uid : String) (u : User) :
    List (String × User) :=
  db.map (fun kv => if kv.1 = uid then (uid, u) else kv)

/-- The route handler `controllers.update_user_email`: unknown user, falsy
email, invalid format and already-registered email are rejected in that
order; otherwise the user's email and the global email set are updated. -/
def update_user_email (st : AppState) (uid : String)
    (new_email : Option String) : Resp × AppState :=
  match dbFind st.users_db uid with
  | none => (("User not found", 404), st)
  | some u =>
    match new_email with
    | none => (("Email is required", 400), st)
    | some e =>
      if e = "" then (("Email is required", 400), st)
      else
        match validate_field "email" (Value.str e) with
        | some err => ((err, 400), st)
        | none =>
          if e ∈ st.users_emails then (("Email already exists.", 409), st)
          else
            (("Email updated successfully", 200),
             { users_db := dbSet st.users_db uid { u with email := e }
               users_emails := insert e (st.users_emails.erase u.email) })
/-- A user equipped with the default admissions flow, as
`controllers.create_user` builds one. -/
def mkDefaultUser (uid email : String) : User :=
  addStepsInOrder (User.init uid email) default_admissions_steps

/-- A concrete default-flow user. -/
def exampleDefaultUser : User := mkDefaultUser "u1" "a@b.com"

/-- Condition values completing the eight tasks of the default flow in
order: a passing IQ score for the second task and a passing interview
decision for the fourth, no condition value for the rest. -/
def acceptScript : List (Option Value) :=
  [none, some (Value.int 90), none, some (Value.str "passed_interview"),
   none, none, none, none]

/-- Replace the identity fields of a user, leaving the flow state alone. -/
def User.reid (u : User) (uid email : String) : User :=
  { u with user_id := uid, email := email }

/-- A default-flow user with arbitrary identity fields is the concrete
example user with its identity fields replaced. -/
lemma mkDefaultUser_eq (uid email : String) :
    mkDefaultUser uid email = exampleDefaultUser.reid uid email := rfl

/-- Progression never reads the identity fields. -/
lemma progress_reid (u : User) (cv : Option Value) (uid email : String) :
    progress (u.reid uid email) cv =
      (progress u cv).map (fun r => (r.1.reid uid email, r.2)) := by
  simp only [progress, get_current_step_and_task, User.reid]
  cases u.steps[u.current_step_index]? with
  | none => rfl
  | some s =>
    dsimp only
    cases s.tasks[s.current_task_index]? with
    | none => rfl
    | some t =>
      dsimp only
      split_ifs <;> rfl

/-- Iterated progression never reads the identity fields. -/
lemma runProgress_reid (u : User) (script : List (Option Value))
    (uid email : String) :
    runProgress (u.reid uid email) script =
      (runProgress u script).map (fun v => v.reid uid email) := by
  induction script generalizing u with
  | nil => rfl
  | cons cv rest ih =>
    simp only [runProgress, progress_reid u cv uid email]
    cases progress u cv with
    | none => rfl
    | some r => simpa using ih r.1

/-- C2 counterexample: the default flow contains 8 tasks
(1 + 1 + 2 + 2 + 1 + 1), not 7 as the claim states. -/
theorem default_flow_task_count_not_seven :
    (default_admissions_steps.map (fun s => s.tasks.length)).sum = 8 ∧
    ¬ (default_admissions_steps.map (fun s => s.tasks.length)).sum = 7 := by
  decide

/-- C2 (amended): the default flow built when no custom definition is
supplied has exactly the 6 steps Personal Details Form, IQ Test,
Interview, Sign Contract, Payment, Join Slack in that order, contains 8
tasks in total, and for every user given this flow, completing every task
of every step in order drives the status from IN_PROGRESS to ACCEPTED. -/
theorem default_flow_accepts :
    create_admissions_flow none = Except.ok default_admissions_steps ∧
    default_admissions_steps.map Step.step_name =
      ["Personal Details Form", "IQ Test", "Interview", "Sign Contract",
       "Payment", "Join Slack"] ∧
    (default_admissions_steps.map (fun s => s.tasks.length)).sum = 8 ∧
    ∀ uid email : String,
      (mkDefaultUser uid email).status = Status.inProgress ∧
      (runProgress (mkDefaultUser uid email) acceptScript).map User.status =
        some Status.accepted := by
  refine ⟨rfl, by decide, by decide, fun uid email => ⟨rfl, ?_⟩⟩
  rw [mkDefaultUser_eq uid email,
    runProgress_reid exampleDefaultUser acceptScript uid email]
  have h : (runProgress exampleDefaultUser acceptScript).map User.status =
      some Status.accepted := by decide
  cases hr : runProgress exampleDefaultUser acceptScript with
  | none => rw [hr] at h; cases h
  | some u2 => rw [hr] at h; simpa using h

/-- C3: evaluation of the code at the failing input.  The first task of
the default flow has no condition; `progress` reports success (`True`)
and completes the step, but the task itself is left NOT_COMPLETED —
`check_completion`, the only place a task status changes, runs only when
a condition is set, contradicting the spec's "(or no condition), task
status becomes COMPLETED" and the controllers' own already-COMPLETED
checks. -/
theorem no_condition_task_stays_not_completed :
    (progress exampleDefaultUser none).map (fun r => r.2) = some true ∧
    ((progress exampleDefaultUser none).map
      (fun r => (r.1.steps[0]?).map (fun s => (s.status, s.tasks.map Task.status)))) =
      some (some (Status.completed, [Status.notCompleted])) := by
  exact ⟨rfl, rfl⟩
/-- C8 counterexample: on a value that is not integer-parseable the score
validator returns the valid-integer message, not the between-message the
claim asserts for that case. -/
theorem score_message_differs_on_unparseable :
    validate_field "score" (Value.str "abc") =
      some "Score must be a valid integer between 0 and 100." ∧
    ¬ validate_field "score" (Value.str "abc") =
        some "Score must be between 0 and 100." ∧
    parsePyIntValue (Value.str "abc") = none := by
  decide

/-- C8 (amended): `validate("score", v)` returns "Score must be between 0
and 100." exactly when `v` parses to an integer outside `[0, 100]`,
returns "Score must be a valid integer between 0 and 100." exactly when
`v` is not integer-parseable, and returns no error exactly when `v`
parses to an integer in `[0, 100]`. -/
theorem validate_score_spec (v : Value) :
    (validate_field "score" v = some "Score must be between 0 and 100." ↔
      ∃ n, parsePyIntValue v = some n ∧ ¬(0 ≤ n ∧ n ≤ 100)) ∧
    (validate_field "score" v =
        some "Score must be a valid integer between 0 and 100." ↔
      parsePyIntValue v = none) ∧
    (validate_field "score" v = none ↔
      ∃ n, parsePyIntValue v = some n ∧ 0 ≤ n ∧ n ≤ 100) := by
  have hv : validate_field "score" v = scoreCheck v := rfl
  rw [hv]
  unfold scoreCheck
  cases h : parsePyIntValue v with
  | none =>
    dsimp only
    refine ⟨⟨fun hh => absurd (Option.some.inj hh) (by decide), ?_⟩,
      ⟨fun _ => rfl, fun _ => rfl⟩,
      ⟨fun hh => absurd hh (by decide), ?_⟩⟩
    · rintro ⟨n, hn, -⟩; cases hn
    · rintro ⟨n, hn, -⟩; cases hn
  | some n =>
    dsimp only
    by_cases hr : 0 ≤ n ∧ n ≤ 100
    · rw [if_pos hr]
      refine ⟨⟨fun hh => absurd hh (by simp), ?_⟩,
        ⟨fun hh => absurd hh (by simp), fun hh => absurd hh (by simp)⟩,
        ⟨fun _ => ⟨n, rfl, hr⟩, fun _ => rfl⟩⟩
      rintro ⟨m, hm, hmr⟩
      exact absurd (by rw [Option.some.inj hm] at hr; exact hr) hmr
    · rw [if_neg hr]
      refine ⟨⟨fun _ => ⟨n, rfl, hr⟩, fun _ => rfl⟩,
        ⟨fun hh => absurd (Option.some.inj hh) (by decide), fun hh => ?_⟩,
        ⟨fun hh => absurd hh (by simp), ?_⟩⟩
      · cases hh
      · rintro ⟨m, hm, hmr⟩
        exact absurd (by rw [← Option.some.inj hm] at hmr; exact hmr) hr

/-- C10: updating a user's email to the user's own current email reports
"Email already exists." and leaves the state unchanged, because the
user's own email is a member of the global email set (the duplicate check
does not exempt the owner).  The hypotheses — the user is registered, its
email is registered and of valid format — hold for every user created
through `create_user`. -/
theorem update_own_email_duplicate (st : AppState) (uid : String) (u : User)
    (hfind : dbFind st.users_db uid = some u)
    (hvalid : validate_field "email" (Value.str u.email) = none)
    (hmem : u.email ∈ st.users_emails) :
    update_user_email st uid (some u.email) =
      (("Email already exists.", 409), st) := by
  have hne : ¬ u.email = "" := by
    intro h0
    rw [h0] at hvalid
    exact absurd hvalid (by decide)
  unfold update_user_email
  rw [hfind]
  dsimp only
  rw [if_neg hne, hvalid]
  dsimp only
  rw [if_pos hmem]

/-- A one-user application state for the C10 witness. -/
def c10_state : AppState :=
  { users_db := [("u1", User.init "u1" "a@b.com")]
    users_emails := {"a@b.com"} }

/-- C10 witness: the duplicate-email outcome at a concrete state. -/
theorem update_own_email_duplicate_witness :
    dbFind c10_state.users_db "u1" = some (User.init "u1" "a@b.com") ∧
    validate_field "email" (Value.str (User.init "u1" "a@b.com").email) = none ∧
    (User.init "u1" "a@b.com").email ∈ c10_state.users_emails ∧
    update_user_email c10_state "u1" (some (User.init "u1" "a@b.com").email) =
      (("Email already exists.", 409), c10_state) :=
  ⟨by decide, by decide, by decide,
   update_own_email_duplicate c10_state "u1" (User.init "u1" "a@b.com")
     (by decide) (by decide) (by decide)⟩
/-- The outcome the C1 claim ascribes to `progress` for a user whose
cursors resolve to step `s` and task `t`: rejection after condition
evaluation marks step and user REJECTED and returns `False`; otherwise,
with more tasks remaining, the task cursor advances; otherwise the step
is COMPLETED and either the step cursor advances or the user is
ACCEPTED, returning `True`. -/
def progressClaim (u : User) (cv : Option Value) (s : Step) (t : Task) : Prop :=
  let t2 := if t.condition.isSome then t.check_completion cv else t
  if t2.status = Status.rejected then
    ∃ u2, progress u cv = some (u2, false) ∧
      u2.status = Status.rejected ∧
      (u2.steps[u.current_step_index]?).map Step.status = some Status.rejected
  else if s.current_task_index < s.tasks.length - 1 then
    ∃ u2, progress u cv = some (u2, true) ∧
      (u2.steps[u.current_step_index]?).map Step.current_task_index =
        some (s.current_task_index + 1) ∧
      u2.current_step_index = u.current_step_index ∧
      u2.status = u.status
  else
    ∃ u2, progress u cv = some (u2, true) ∧
      (u2.steps[u.current_step_index]?).map Step.status = some Status.completed ∧
      (if u.current_step_index < u.steps.length - 1 then
        u2.current_step_index = u.current_step_index + 1 ∧ u2.status = u.status
      else
        u2.current_step_index = u.current_step_index ∧
        u2.status = Status.accepted)

/-- C1: for every user whose cursors resolve to a current step and task,
`progress` behaves as the claim describes: REJECTED after condition
evaluation propagates to step and user and returns `False`; otherwise it
advances the task cursor when tasks remain, or completes the step and
advances the step cursor or accepts the user, returning `True`. -/
theorem progress_spec (u : User) (cv : Option Value) (s : Step) (t : Task)
    (hs : u.steps[u.current_step_index]? = some s)
    (ht : s.tasks[s.current_task_index]? = some t) :
    progressClaim u cv s t := by
  obtain ⟨hlen, -⟩ := List.getElem?_eq_some.mp hs
  have hget : get_current_step_and_task u = some (s, t) := by
    unfold get_current_step_and_task
    rw [hs]
    dsimp only
    rw [ht]
  unfold progressClaim progress
  rw [hget]
  dsimp only
  by_cases h1 :
      (if t.condition.isSome then t.check_completion cv else t).status =
        Status.rejected
  · simp only [if_pos h1]
    refine ⟨_, rfl, rfl, ?_⟩
    rw [List.getElem?_set_eq_of_lt _ hlen]
    rfl
  · simp only [if_neg h1, List.length_set]
    by_cases h2 : s.current_task_index < s.tasks.length - 1
    · simp only [if_pos h2]
      refine ⟨_, rfl, ?_, rfl, rfl⟩
      rw [List.getElem?_set_eq_of_lt _ hlen]
      rfl
    · simp only [if_neg h2]
      by_cases h3 : u.current_step_index < u.steps.length - 1
      · simp only [if_pos h3]
        refine ⟨_, rfl, ?_, rfl, rfl⟩
        rw [List.getElem?_set_eq_of_lt _ hlen]
        rfl
      · simp only [if_neg h3]
        refine ⟨_, rfl, ?_, rfl, rfl⟩
        rw [List.getElem?_set_eq_of_lt _ hlen]
        rfl

/-- The first step of the default flow, for the C1 witness. -/
def c1_step : Step :=
  Step.make "Personal Details Form"
    (some [Task.make "Personal Details Form" none
             ["first_name", "last_name", "email", "timestamp"]])

/-- The first task of the default flow, for the C1 witness. -/
def c1_task : Task :=
  Task.make "Personal Details Form" none
    ["first_name", "last_name", "email", "timestamp"]

/-- C1 witness: the progression claim instantiated at the fresh default
user, whose current step and task are concrete. -/
theorem progress_spec_witness :
    exampleDefaultUser.steps[exampleDefaultUser.current_step_index]? =
      some c1_step ∧
    c1_step.tasks[c1_step.current_task_index]? = some c1_task ∧
    progressClaim exampleDefaultUser none c1_step c1_task :=
  ⟨by decide, by decide,
   progress_spec exampleDefaultUser none c1_step c1_task
     (by decide) (by decide)⟩
/-- A conditioned task for the C6 scenarios. -/
def c6_cond_task : Task :=
  Task.make "t1" (some Condition.iqScore) ["condition_var", "score"]

/-- A payload passing validation and the IQ condition for `c6_cond_task`. -/
def c6_payload : Payload :=
  [("condition_var", Value.str "score"), ("score", Value.int 90)]

/-- A user with one step of two tasks, the first conditioned. -/
def c6_user0 : User :=
  addStepsInOrder (User.init "u6" "c6@x.com")
    [Step.make "A" (some [c6_cond_task, Task.make "t2" none []])]

/-- `c6_user0` after successfully completing the first task: that task is
COMPLETED and the cursor has advanced to the second task. -/
def c6_user1 : User :=
  ((complete_task c6_user0 "A" "t1" c6_payload).map (fun r => r.2)).getD c6_user0

/-- C6 counterexample: the first task of `c6_user1` is COMPLETED, yet
calling `complete_task` again for it returns the not-current-task error,
not the "already completed" outcome the claim asserts (the user is left
unchanged).  The already-completed branch is reachable only while the
completed task is still the current one. -/
theorem complete_task_repeat_not_already_completed :
    ((c6_user1.steps[0]?).bind (fun s => s.tasks[0]?)).map Task.status =
      some Status.completed ∧
    (complete_task c6_user1 "A" "t1" c6_payload).map (fun r => r.1) =
      some ("Task t1 is not the current task", 400) ∧
    (complete_task c6_user1 "A" "t1" c6_payload).map (fun r => r.2) =
      some c6_user1 ∧
    ¬ (complete_task c6_user1 "A" "t1" c6_payload).map (fun r => r.1) =
        some ("Task already completed", 400) := by
  decide

/-- C6 (amended): when the already-COMPLETED task is still the current
task of the current step (which only the final task of the final step can
be after a successful completion), `complete_task` returns the "Task
already completed" outcome with the user unchanged, so the condition is
not re-evaluated; a completed task that is no longer current instead gets
a not-current error, also without state change. -/
theorem complete_task_already_completed (u : User) (sn tn : String)
    (p : Payload) (s : Step) (t : Task)
    (hp : ¬ p = [])
    (hsn : sn ∈ u.steps_names)
    (hs : u.steps[u.current_step_index]? = some s)
    (hname : s.step_name = sn)
    (htn : tn ∈ s.tasks_names)
    (ht : s.tasks[s.current_task_index]? = some t)
    (htname : t.task_name = tn)
    (hc : t.status = Status.completed) :
    complete_task u sn tn p = some (("Task already completed", 400), u) := by
  have hpe : ¬ p.isEmpty = true := by
    cases p with
    | nil => exact absurd rfl hp
    | cons a l => simp
  unfold complete_task
  rw [if_neg hpe, if_pos hsn, hs]
  dsimp only
  rw [if_neg (not_not_intro hname), if_pos htn, ht]
  dsimp only
  rw [if_neg (not_not_intro htname), if_pos hc]

/-- A user whose single conditioned task was completed: it is the final
task of the final step, so it is still the current task. -/
def c6_accept_user : User :=
  ((complete_task
      (addStepsInOrder (User.init "u6b" "c6b@x.com")
        [Step.make "A" (some [c6_cond_task])])
      "A" "t1" c6_payload).map (fun r => r.2)).getD (User.init "u6b" "c6b@x.com")

/-- The current (and completed) step of `c6_accept_user`. -/
def c6_done_step : Step :=
  (c6_accept_user.steps[0]?).getD (Step.make "A" none)

/-- The completed conditioned task of `c6_accept_user`. -/
def c6_done_task : Task :=
  { c6_cond_task with status := Status.completed }

/-- C6 witness: the already-completed outcome at a concrete user whose
completed task is still current. -/
theorem complete_task_already_completed_witness :
    ¬ c6_payload = [] ∧
    "A" ∈ c6_accept_user.steps_names ∧
    c6_accept_user.steps[c6_accept_user.current_step_index]? =
      some c6_done_step ∧
    c6_done_step.step_name = "A" ∧
    "t1" ∈ c6_done_step.tasks_names ∧
    c6_done_step.tasks[c6_done_step.current_task_index]? = some c6_done_task ∧
    c6_done_task.task_name = "t1" ∧
    c6_done_task.status = Status.completed ∧
    complete_task c6_accept_user "A" "t1" c6_payload =
      some (("Task already completed", 400), c6_accept_user) :=
  ⟨by decide, by decide, by decide, by decide, by decide, by decide, by decide,
   by decide,
   complete_task_already_completed c6_accept_user "A" "t1" c6_payload
     c6_done_step c6_done_task (by decide) (by decide) (by decide) (by decide)
     (by decide) (by decide) (by decide) (by decide)⟩
/-- C7: `validate_task_payload` fails with a missing-required-fields error
listing exactly the required fields absent from the payload (all of them,
in declaration order), and only when none is absent does it run the field
validator over the required fields in order, surfacing the first failure
or no error. -/
theorem validate_task_payload_spec (t : Task) (p : Payload) :
    (∀ f, f ∈ missingFields t p ↔
        f ∈ t.required_fields ∧ pLookup p f = none) ∧
    (¬ missingFields t p = [] →
      validate_task_payload t p =
        some ("Missing required fields: " ++
          String.intercalate ", " (missingFields t p), 400)) ∧
    (missingFields t p = [] →
      validate_task_payload t p =
        match first_field_error t.required_fields p with
        | some e => some (e, 400)
        | none => none) := by
  refine ⟨fun f => ?_, fun hne => ?_, fun he => ?_⟩
  · simp [missingFields, List.mem_filter, Option.isNone_iff_eq_none]
  · have hb : (missingFields t p).isEmpty = false := by
      cases hm : missingFields t p with
      | nil => exact absurd hm hne
      | cons a l => rfl
    unfold validate_task_payload
    dsimp only
    rw [if_neg (by rw [hb]; simp)]
  · unfold validate_task_payload
    dsimp only
    rw [if_pos (by rw [he]; rfl)]

/-- A two-required-field task for the C7 witness. -/
def c7_task : Task := Task.make "t" none ["a", "b"]

/-- A payload missing the second required field. -/
def c7_payload : Payload := [("a", Value.str "x")]

/-- A payload carrying both required fields. -/
def c7_full_payload : Payload :=
  [("a", Value.str "x"), ("b", Value.str "y")]

/-- C7 witness: both branches of the payload validator at concrete
inputs. -/
theorem validate_task_payload_spec_witness :
    (¬ missingFields c7_task c7_payload = []) ∧
    validate_task_payload c7_task c7_payload =
      some ("Missing required fields: " ++
        String.intercalate ", " (missingFields c7_task c7_payload), 400) ∧
    missingFields c7_task c7_full_payload = [] ∧
    validate_task_payload c7_task c7_full_payload =
      (match first_field_error c7_task.required_fields c7_full_payload with
       | some e => some (e, 400)
       | none => none) :=
  ⟨by decide,
   (validate_task_payload_spec c7_task c7_payload).2.1 (by decide),
   by decide,
   (validate_task_payload_spec c7_task c7_full_payload).2.2 (by decide)⟩

/-- A reachable user on the last of two steps: the single task of step
"A" was completed, so the cursor advanced to step "B". -/
def c4_user : User :=
  (runProgress
    (addStepsInOrder (User.init "u4" "c4@x.com")
      [Step.make "A" none, Step.make "B" none])
    [none]).getD (User.init "u4" "c4@x.com")

/-- C4 counterexample: `c4_user` is IN_PROGRESS with a valid cursor, yet
removing the non-current step at index 0 — which the boundary handler
accepts — succeeds and leaves `current_step_index` equal to the new
length, violating the invariant the claim says is maintained.  The engine
never adjusts the cursor on removal. -/
theorem remove_step_breaks_cursor_invariant :
    c4_user.status = Status.inProgress ∧
    c4_user.current_step_index < c4_user.steps.length ∧
    (remove_step_from_user c4_user none (some 0)).map
      (fun r => (r.1.2, r.2.status,
        decide (r.2.current_step_index < r.2.steps.length))) =
      some (200, Status.inProgress, false) := by
  decide

/-- Length preservation of the by-name replacement loop. -/
lemma replaceByName_length (l : List Step) (n : String) (ns : Step)
    (l2 : List Step) (h : replaceByName l n ns = some l2) :
    l2.length = l.length := by
  induction l generalizing l2 with
  | nil => cases h
  | cons s rest ih =>
    unfold replaceByName at h
    split at h
    · cases h; rfl
    · cases hr : replaceByName rest n ns with
      | some l3 =>
        rw [hr] at h
        cases h
        simp [ih l3 hr]
      | none => rw [hr] at h; cases h

/-- Length decrease of the by-name removal loop. -/
lemma removeByName_length (l : List Step) (n : String) (l2 : List Step)
    (r : Step) (h : removeByName l n = some (l2, r)) :
    l2.length + 1 = l.length := by
  induction l generalizing l2 r with
  | nil => cases h
  | cons s rest ih =>
    unfold removeByName at h
    split at h
    · cases h; rfl
    · cases hr : removeByName rest n with
      | some pr =>
        rw [hr] at h
        cases h
        have := ih pr.1 pr.2 (by rw [hr])
        simp only [List.length_cons]
        omega
      | none => rw [hr] at h; cases h

/-- C4 (amended): for an IN_PROGRESS user with a valid step cursor, the
cursor invariant `current_step_index < len(steps)` is preserved by every
successful `add_step` and `modify_step`; a successful `remove_step`
preserves it only when the cursor is not on the last step
(`current_step_index + 1 < len(steps)`) — removing any step while the
cursor sits on the last one breaks it, as the counterexample shows. -/
theorem cursor_invariant_preservation :
    (∀ (u : User) (st : Step) (idx : Option Int) (u2 : User),
      u.status = Status.inProgress →
      u.current_step_index < u.steps.length →
      u.add_step st idx = Except.ok u2 →
      u2.current_step_index < u2.steps.length) ∧
    (∀ (u : User) (ns : Step) (sn : Option String) (idx : Option Int)
        (u2 : User),
      u.status = Status.inProgress →
      u.current_step_index < u.steps.length →
      u.modify_step ns sn idx = Except.ok u2 →
      u2.current_step_index < u2.steps.length) ∧
    (∀ (u : User) (sn : Option String) (idx : Option Int) (u2 : User)
        (r : Step),
      u.status = Status.inProgress →
      u.current_step_index + 1 < u.steps.length →
      u.remove_step sn idx = Except.ok (u2, r) →
      u2.current_step_index < u2.steps.length) := by
  refine ⟨?_, ?_, ?_⟩
  · intro u st idx u2 _ hinv hok
    cases idx with
    | none =>
      cases hok
      have hlen2 : (u.append_step st).steps.length = u.steps.length + 1 := by
        simp [User.append_step]
      show u.current_step_index < (u.append_step st).steps.length
      rw [hlen2]
      exact Nat.lt_succ_of_lt hinv
    | some i =>
      unfold User.add_step at hok
      dsimp only at hok
      by_cases hi : 0 ≤ i ∧ i ≤ (u.steps.length : Int)
      · rw [if_pos hi] at hok
        cases hok
        have hle : i.toNat ≤ u.steps.length := Int.toNat_le.mpr hi.2
        show u.current_step_index < (u.steps.insertIdx i.toNat st).length
        rw [List.length_insertIdx _ _ hle]
        exact Nat.lt_succ_of_lt hinv
      · rw [if_neg hi] at hok
        cases hok
  · intro u ns sn idx u2 _ hinv hok
    have hbyname : ∀ u3 : User, u.modify_step_by_name ns sn = Except.ok u3 →
        u3.current_step_index < u3.steps.length := by
      intro u3 hok3
      unfold User.modify_step_by_name at hok3
      cases sn with
      | none => cases hok3
      | some n =>
        dsimp only at hok3
        by_cases hn : n = ""
        · rw [if_pos hn] at hok3
          cases hok3
        · rw [if_neg hn] at hok3
          cases hr : replaceByName u.steps n ns with
          | some l2 =>
            rw [hr] at hok3
            cases hok3
            show u.current_step_index < l2.length
            rw [replaceByName_length u.steps n ns l2 hr]
            exact hinv
          | none => rw [hr] at hok3; cases hok3
    cases idx with
    | none => exact hbyname u2 hok
    | some i =>
      unfold User.modify_step at hok
      dsimp only at hok
      by_cases hi : 0 ≤ i ∧ i.toNat < u.steps.length
      · rw [dif_pos hi] at hok
        cases hok
        show u.current_step_index < (u.steps.set i.toNat ns).length
        rw [List.length_set]
        exact hinv
      · rw [dif_neg hi] at hok
        exact hbyname u2 hok
  · intro u sn idx u2 r _ hinv hok
    cases idx with
    | some i =>
      unfold User.remove_step at hok
      dsimp only at hok
      by_cases hi : 0 ≤ i ∧ i.toNat < u.steps.length
      · rw [dif_pos hi] at hok
        cases hok
        show u.current_step_index < (u.steps.eraseIdx i.toNat).length
        rw [List.length_eraseIdx_of_lt hi.2]
        omega
      · rw [dif_neg hi] at hok
        cases hok
    | none =>
      unfold User.remove_step at hok
      cases sn with
      | none => cases hok
      | some n =>
        dsimp only at hok
        by_cases hn : n = ""
        · rw [if_pos hn] at hok
          cases hok
        · rw [if_neg hn] at hok
          cases hr : removeByName u.steps n with
          | some pr =>
            rw [hr] at hok
            cases hok
            have := removeByName_length u.steps n pr.1 pr.2 (by rw [hr])
            show u.current_step_index < pr.1.length
            omega
          | none => rw [hr] at hok; cases hok

/-- A fresh two-step user for the C4 witness. -/
def c4w_user : User :=
  addStepsInOrder (User.init "w4" "w4@x.com")
    [Step.make "A" none, Step.make "B" none]

/-- The C4 witness user after appending a step. -/
def c4w_added : User :=
  match c4w_user.add_step (Step.make "C" none) none with
  | Except.ok v => v
  | Except.error _ => c4w_user

/-- The C4 witness user after modifying step "B". -/
def c4w_modified : User :=
  match c4w_user.modify_step (Step.make "D" none) (some "B") none with
  | Except.ok v => v
  | Except.error _ => c4w_user

/-- The C4 witness user (and removed step) after removing step "B". -/
def c4w_removed : User × Step :=
  match c4w_user.remove_step (some "B") none with
  | Except.ok v => v
  | Except.error _ => (c4w_user, Step.make "B" none)

/-- C4 witness: cursor-invariant preservation at concrete mutations. -/
theorem cursor_invariant_preservation_witness :
    c4w_user.status = Status.inProgress ∧
    c4w_user.current_step_index < c4w_user.steps.length ∧
    c4w_user.add_step (Step.make "C" none) none = Except.ok c4w_added ∧
    c4w_added.current_step_index < c4w_added.steps.length ∧
    c4w_user.modify_step (Step.make "D" none) (some "B") none =
      Except.ok c4w_modified ∧
    c4w_modified.current_step_index < c4w_modified.steps.length ∧
    c4w_user.current_step_index + 1 < c4w_user.steps.length ∧
    c4w_user.remove_step (some "B") none =
      Except.ok (c4w_removed.1, c4w_removed.2) ∧
    c4w_removed.1.current_step_index < c4w_removed.1.steps.length :=
  ⟨by decide, by decide, rfl,
   cursor_invariant_preservation.1 c4w_user (Step.make "C" none) none
     c4w_added (by decide) (by decide) rfl,
   rfl,
   cursor_invariant_preservation.2.1 c4w_user (Step.make "D" none)
     (some "B") none c4w_modified (by decide) (by decide) rfl,
   by decide,
   rfl,
   cursor_invariant_preservation.2.2 c4w_user (some "B") none
     c4w_removed.1 c4w_removed.2 (by decide) (by decide) rfl⟩
/-- The step-name mirror invariant of a user: `steps_names` is the set of
the names of `steps`. -/
def User.namesInv (u : User) : Prop :=
  u.steps_names = (u.steps.map Step.step_name).toFinset

/-- The task-name mirror invariant of a step: `tasks_names` is the set of
the names of `tasks`. -/
def Step.namesInv (s : Step) : Prop :=
  s.tasks_names = (s.tasks.map Task.task_name).toFinset

/-- Appending one element adds its name to the name set. -/
lemma toFinset_map_append_single (l : List Step) (st : Step) :
    ((l ++ [st]).map Step.step_name).toFinset =
      insert st.step_name (l.map Step.step_name).toFinset := by
  ext x
  simp [or_comm]

/-- Insertion at an in-range position adds the name to the name set. -/
lemma toFinset_map_insertIdx (l : List Step) (st : Step) (k : Nat)
    (hk : k ≤ l.length) :
    ((l.insertIdx k st).map Step.step_name).toFinset =
      insert st.step_name (l.map Step.step_name).toFinset := by
  ext x
  simp only [List.mem_toFinset, List.mem_map, Finset.mem_insert]
  constructor
  · rintro ⟨a, ha, rfl⟩
    rcases (List.mem_insertIdx hk).mp ha with h | h
    · exact Or.inl (by rw [h])
    · exact Or.inr ⟨a, h, rfl⟩
  · rintro (h | ⟨a, ha, rfl⟩)
    · exact ⟨st, (List.mem_insertIdx hk).mpr (Or.inl rfl), h.symm⟩
    · exact ⟨a, (List.mem_insertIdx hk).mpr (Or.inr ha), rfl⟩

/-- With distinct names, erasing the element at an index removes exactly
its name from the name set. -/
lemma toFinset_map_eraseIdx (l : List Step) (k : Nat) (hk : k < l.length)
    (hnd : (l.map Step.step_name).Nodup) :
    ((l.eraseIdx k).map Step.step_name).toFinset =
      ((l.map Step.step_name).toFinset).erase (l.get ⟨k, hk⟩).step_name := by
  induction l generalizing k with
  | nil => cases hk
  | cons s rest ih =>
    simp only [List.map_cons, List.nodup_cons, List.mem_map] at hnd
    cases k with
    | zero =>
      have hnotin : s.step_name ∉ (rest.map Step.step_name).toFinset := by
        simp only [List.mem_toFinset, List.mem_map]
        rintro ⟨a, ha, haeq⟩
        exact hnd.1 ⟨a, ha, haeq⟩
      simpa using (Finset.erase_insert hnotin).symm
    | succ k2 =>
      have hk2 : k2 < rest.length := Nat.lt_of_succ_lt_succ hk
      have hne : s.step_name ≠ (rest.get ⟨k2, hk2⟩).step_name := by
        intro heq
        exact hnd.1 ⟨rest.get ⟨k2, hk2⟩, List.get_mem rest k2 hk2, heq.symm⟩
      calc ((( s :: rest).eraseIdx (k2 + 1)).map Step.step_name).toFinset
          = insert s.step_name ((rest.eraseIdx k2).map Step.step_name).toFinset := by
            simp
        _ = insert s.step_name
              (((rest.map Step.step_name).toFinset).erase
                (rest.get ⟨k2, hk2⟩).step_name) := by
            rw [ih k2 hk2 hnd.2]
        _ = ((( s :: rest).map Step.step_name).toFinset).erase
              ((s :: rest).get ⟨k2 + 1, hk⟩).step_name := by
            simp only [List.map_cons, List.toFinset_cons, List.get_cons_succ]
            rw [Finset.erase_insert_of_ne hne]

/-- With distinct names, setting the element at an index swaps its name
for the new one in the name set. -/
lemma toFinset_map_set (l : List Step) (k : Nat) (st : Step)
    (hk : k < l.length) (hnd : (l.map Step.step_name).Nodup) :
    ((l.set k st).map Step.step_name).toFinset =
      insert st.step_name
        (((l.map Step.step_name).toFinset).erase (l.get ⟨k, hk⟩).step_name) := by
  induction l generalizing k with
  | nil => cases hk
  | cons s rest ih =>
    simp only [List.map_cons, List.nodup_cons, List.mem_map] at hnd
    cases k with
    | zero =>
      have hnotin : s.step_name ∉ (rest.map Step.step_name).toFinset := by
        simp only [List.mem_toFinset, List.mem_map]
        rintro ⟨a, ha, haeq⟩
        exact hnd.1 ⟨a, ha, haeq⟩
      simpa using congrArg (insert st.step_name) (Finset.erase_insert hnotin).symm
    | succ k2 =>
      have hk2 : k2 < rest.length := Nat.lt_of_succ_lt_succ hk
      have hne : s.step_name ≠ (rest.get ⟨k2, hk2⟩).step_name := by
        intro heq
        exact hnd.1 ⟨rest.get ⟨k2, hk2⟩, List.get_mem rest k2 hk2, heq.symm⟩
      calc ((( s :: rest).set (k2 + 1) st).map Step.step_name).toFinset
          = insert s.step_name ((rest.set k2 st).map Step.step_name).toFinset := by
            simp
        _ = insert s.step_name (insert st.step_name
              (((rest.map Step.step_name).toFinset).erase
                (rest.get ⟨k2, hk2⟩).step_name)) := by
            rw [ih k2 hk2 hnd.2]
        _ = insert st.step_name
              ((((s :: rest).map Step.step_name).toFinset).erase
                ((s :: rest).get ⟨k2 + 1, hk⟩).step_name) := by
            simp only [List.map_cons, List.toFinset_cons, List.get_cons_succ]
            rw [Finset.erase_insert_of_ne hne, Finset.Insert.comm]

/-- With distinct names, the by-name removal loop removes exactly the
searched name from the name set. -/
lemma removeByName_toFinset (l : List Step) (n : String) (l2 : List Step)
    (r : Step) (hnd : (l.map Step.step_name).Nodup)
    (h : removeByName l n = some (l2, r)) :
    (l2.map Step.step_name).toFinset =
      ((l.map Step.step_name).toFinset).erase n := by
  induction l generalizing l2 r with
  | nil => cases h
  | cons s rest ih =>
    simp only [List.map_cons, List.nodup_cons, List.mem_map] at hnd
    have hnotin : s.step_name ∉ (rest.map Step.step_name).toFinset := by
      simp only [List.mem_toFinset, List.mem_map]
      rintro ⟨a, ha, haeq⟩
      exact hnd.1 ⟨a, ha, haeq⟩
    unfold removeByName at h
    by_cases hs : s.step_name = n
    · rw [if_pos hs] at h
      cases h
      rw [List.map_cons, List.toFinset_cons, ← hs, Finset.erase_insert hnotin]
    · rw [if_neg hs] at h
      cases hr : removeByName rest n with
      | some pr =>
        rw [hr] at h
        cases h
        have hih := ih pr.1 pr.2 hnd.2 (by rw [hr])
        simp only [List.map_cons, List.toFinset_cons]
        rw [hih, Finset.erase_insert_of_ne hs]
      | none => rw [hr] at h; cases h

/-- With distinct names, the by-name replacement loop swaps the searched
name for the new step's name in the name set. -/
lemma replaceByName_toFinset (l : List Step) (n : String) (ns : Step)
    (l2 : List Step) (hnd : (l.map Step.step_name).Nodup)
    (h : replaceByName l n ns = some l2) :
    (l2.map Step.step_name).toFinset =
      insert ns.step_name (((l.map Step.step_name).toFinset).erase n) := by
  induction l generalizing l2 with
  | nil => cases h
  | cons s rest ih =>
    simp only [List.map_cons, List.nodup_cons, List.mem_map] at hnd
    have hnotin : s.step_name ∉ (rest.map Step.step_name).toFinset := by
      simp only [List.mem_toFinset, List.mem_map]
      rintro ⟨a, ha, haeq⟩
      exact hnd.1 ⟨a, ha, haeq⟩
    unfold replaceByName at h
    by_cases hs : s.step_name = n
    · rw [if_pos hs] at h
      cases h
      rw [List.map_cons, List.toFinset_cons, List.map_cons, List.toFinset_cons,
        ← hs, Finset.erase_insert hnotin]
    · rw [if_neg hs] at h
      cases hr : replaceByName rest n ns with
      | some l3 =>
        rw [hr] at h
        cases h
        have hih := ih l3 hnd.2 hr
        simp only [List.map_cons, List.toFinset_cons]
        rw [hih, Finset.erase_insert_of_ne hs, Finset.Insert.comm]
      | none => rw [hr] at h; cases h

/-- C5: step construction puts the task-name set in sync with the task
list, and each successful structural mutation keeps the user's step-name
set equal to the set of names of its step list (removal and replacement
additionally assume the step names are distinct, which the boundary
handlers enforce by rejecting duplicate names). -/
theorem name_sets_stay_in_sync :
    (∀ (name : String) (tasks : Option (List Task)),
      (Step.make name tasks).namesInv) ∧
    (∀ (u : User) (st : Step) (idx : Option Int) (u2 : User),
      u.namesInv → u.add_step st idx = Except.ok u2 → u2.namesInv) ∧
    (∀ (u : User) (sn : Option String) (idx : Option Int) (u2 : User)
        (r : Step),
      u.namesInv → (u.steps.map Step.step_name).Nodup →
      u.remove_step sn idx = Except.ok (u2, r) → u2.namesInv) ∧
    (∀ (u : User) (ns : Step) (sn : Option String) (idx : Option Int)
        (u2 : User),
      u.namesInv → (u.steps.map Step.step_name).Nodup →
      u.modify_step ns sn idx = Except.ok u2 → u2.namesInv) := by
  refine ⟨?_, ?_, ?_, ?_⟩
  · intro name tasks
    rfl
  · intro u st idx u2 hinv hok
    cases idx with
    | none =>
      cases hok
      show insert st.step_name u.steps_names =
        (((u.steps ++ [st]).map Step.step_name)).toFinset
      rw [toFinset_map_append_single, hinv]
    | some i =>
      unfold User.add_step at hok
      dsimp only at hok
      by_cases hi : 0 ≤ i ∧ i ≤ (u.steps.length : Int)
      · rw [if_pos hi] at hok
        cases hok
        show insert st.step_name u.steps_names =
          ((u.steps.insertIdx i.toNat st).map Step.step_name).toFinset
        rw [toFinset_map_insertIdx _ _ _ (Int.toNat_le.mpr hi.2), hinv]
      · rw [if_neg hi] at hok
        cases hok
  · intro u sn idx u2 r hinv hnd hok
    cases idx with
    | some i =>
      unfold User.remove_step at hok
      dsimp only at hok
      by_cases hi : 0 ≤ i ∧ i.toNat < u.steps.length
      · rw [dif_pos hi] at hok
        cases hok
        show u.steps_names.erase (u.steps.get ⟨i.toNat, hi.2⟩).step_name =
          ((u.steps.eraseIdx i.toNat).map Step.step_name).toFinset
        rw [toFinset_map_eraseIdx u.steps i.toNat hi.2 hnd, hinv]
      · rw [dif_neg hi] at hok
        cases hok
    | none =>
      unfold User.remove_step at hok
      cases sn with
      | none => cases hok
      | some n =>
        dsimp only at hok
        by_cases hn : n = ""
        · rw [if_pos hn] at hok
          cases hok
        · rw [if_neg hn] at hok
          cases hr : removeByName u.steps n with
          | some pr =>
            rw [hr] at hok
            cases hok
            show u.steps_names.erase n =
              (pr.1.map Step.step_name).toFinset
            rw [removeByName_toFinset u.steps n pr.1 pr.2 hnd (by rw [hr]),
              hinv]
          | none => rw [hr] at hok; cases hok
  · intro u ns sn idx u2 hinv hnd hok
    have hbyname : ∀ u3 : User, u.modify_step_by_name ns sn = Except.ok u3 →
        u3.namesInv := by
      intro u3 hok3
      unfold User.modify_step_by_name at hok3
      cases sn with
      | none => cases hok3
      | some n =>
        dsimp only at hok3
        by_cases hn : n = ""
        · rw [if_pos hn] at hok3
          cases hok3
        · rw [if_neg hn] at hok3
          cases hr : replaceByName u.steps n ns with
          | some l2 =>
            rw [hr] at hok3
            cases hok3
            show insert ns.step_name (u.steps_names.erase n) =
              (l2.map Step.step_name).toFinset
            rw [replaceByName_toFinset u.steps n ns l2 hnd hr, hinv]
          | none => rw [hr] at hok3; cases hok3
    cases idx with
    | none => exact hbyname u2 hok
    | some i =>
      unfold User.modify_step at hok
      dsimp only at hok
      by_cases hi : 0 ≤ i ∧ i.toNat < u.steps.length
      · rw [dif_pos hi] at hok
        cases hok
        show insert ns.step_name
            (u.steps_names.erase (u.steps.get ⟨i.toNat, hi.2⟩).step_name) =
          ((u.steps.set i.toNat ns).map Step.step_name).toFinset
        rw [toFinset_map_set u.steps i.toNat ns hi.2 hnd, hinv]
      · rw [dif_neg hi] at hok
        exact hbyname u2 hok
/-- A fresh two-step user for the C5 and C9 witnesses. -/
def c5w_user : User :=
  addStepsInOrder (User.init "w5" "w5@x.com")
    [Step.make "A" none, Step.make "B" none]

/-- The C5 witness user after inserting a step at index 1. -/
def c5w_added : User :=
  match c5w_user.add_step (Step.make "C" none) (some 1) with
  | Except.ok v => v
  | Except.error _ => c5w_user

/-- The C5 witness user (and removed step) after removing step "B". -/
def c5w_removed : User × Step :=
  match c5w_user.remove_step (some "B") none with
  | Except.ok v => v
  | Except.error _ => (c5w_user, Step.make "B" none)

/-- The C5 witness user after replacing the step at index 0. -/
def c5w_modified : User :=
  match c5w_user.modify_step (Step.make "D" none) none (some 0) with
  | Except.ok v => v
  | Except.error _ => c5w_user

/-- C5 witness: the name-set invariants at concrete mutations. -/
theorem name_sets_stay_in_sync_witness :
    (Step.make "E" none).namesInv ∧
    c5w_user.namesInv ∧
    (c5w_user.steps.map Step.step_name).Nodup ∧
    c5w_user.add_step (Step.make "C" none) (some 1) = Except.ok c5w_added ∧
    c5w_added.namesInv ∧
    c5w_user.remove_step (some "B") none =
      Except.ok (c5w_removed.1, c5w_removed.2) ∧
    c5w_removed.1.namesInv ∧
    c5w_user.modify_step (Step.make "D" none) none (some 0) =
      Except.ok c5w_modified ∧
    c5w_modified.namesInv :=
  ⟨name_sets_stay_in_sync.1 "E" none,
   by unfold User.namesInv; decide,
   by decide,
   rfl,
   name_sets_stay_in_sync.2.1 c5w_user (Step.make "C" none) (some 1)
     c5w_added (by unfold User.namesInv; decide) rfl,
   rfl,
   name_sets_stay_in_sync.2.2.1 c5w_user (some "B") none
     c5w_removed.1 c5w_removed.2 (by unfold User.namesInv; decide)
     (by decide) rfl,
   rfl,
   name_sets_stay_in_sync.2.2.2 c5w_user (Step.make "D" none) none (some 0)
     c5w_modified (by unfold User.namesInv; decide) (by decide) rfl⟩

/-- The by-name removal loop finds nothing when no step has the name. -/
lemma removeByName_eq_none (l : List Step) (n : String)
    (h : ∀ s ∈ l, ¬ s.step_name = n) : removeByName l n = none := by
  induction l with
  | nil => rfl
  | cons s rest ih =>
    unfold removeByName
    rw [if_neg (h s (List.mem_cons_self s rest)),
      ih (fun s2 hs2 => h s2 (List.mem_cons_of_mem s hs2))]

/-- The by-name replacement loop finds nothing when no step has the
name. -/
lemma replaceByName_eq_none (l : List Step) (n : String) (ns : Step)
    (h : ∀ s ∈ l, ¬ s.step_name = n) : replaceByName l n ns = none := by
  induction l with
  | nil => rfl
  | cons s rest ih =>
    unfold replaceByName
    rw [if_neg (h s (List.mem_cons_self s rest)),
      ih (fun s2 hs2 => h s2 (List.mem_cons_of_mem s hs2))]

/-- C9: every failing structural mutation — add_step with an out-of-range
index, remove_step or modify_step whose target index is out of range and
whose target name is missing or resolves to no step — reports a 400 error
and returns the user exactly unchanged; all raises in the engine happen
before any mutation of `steps` or `steps_names`. -/
theorem failing_mutations_leave_state_unchanged :
    (∀ (u : User) (sn : String) (tasks : Option (List Task)) (i : Int),
      ¬ (0 ≤ i ∧ i ≤ (u.steps.length : Int)) →
      (flow_add_step u sn tasks (some i)).1.2 = 400 ∧
      (flow_add_step u sn tasks (some i)).2 = u) ∧
    (∀ (u : User) (sn : Option String) (idx : Option Int),
      (∀ i, idx = some i → ¬ (0 ≤ i ∧ i.toNat < u.steps.length)) →
      (∀ n, sn = some n → n = "" ∨ ∀ s ∈ u.steps, ¬ s.step_name = n) →
      (flow_remove_step u sn idx).1.2 = 400 ∧
      (flow_remove_step u sn idx).2 = u) ∧
    (∀ (u : User) (nsn : String) (sn : Option String) (idx : Option Int)
        (tasks : Option (List Task)),
      (∀ i, idx = some i → ¬ (0 ≤ i ∧ i.toNat < u.steps.length)) →
      (∀ n, sn = some n → n = "" ∨ ∀ s ∈ u.steps, ¬ s.step_name = n) →
      (flow_modify_step u nsn sn idx tasks).1.2 = 400 ∧
      (flow_modify_step u nsn sn idx tasks).2 = u) := by
  refine ⟨?_, ?_, ?_⟩
  · intro u sn tasks i hbad
    unfold flow_add_step User.add_step
    dsimp only
    rw [if_neg hbad]
    exact ⟨rfl, rfl⟩
  · intro u sn idx hidx hname
    obtain ⟨e, he⟩ : ∃ e, u.remove_step sn idx = Except.error e := by
      cases idx with
      | some i =>
        unfold User.remove_step
        dsimp only
        rw [dif_neg (hidx i rfl)]
        exact ⟨_, rfl⟩
      | none =>
        cases sn with
        | none => exact ⟨_, rfl⟩
        | some n =>
          unfold User.remove_step
          dsimp only
          by_cases hn2 : n = ""
          · rw [if_pos hn2]
            exact ⟨_, rfl⟩
          · rcases hname n rfl with hn | hno
            · exact absurd hn hn2
            · rw [if_neg hn2, removeByName_eq_none u.steps n hno]
              exact ⟨_, rfl⟩
    unfold flow_remove_step
    rw [he]
    exact ⟨rfl, rfl⟩
  · intro u nsn sn idx tasks hidx hname
    have hby : ∃ e,
        u.modify_step_by_name (Step.make nsn tasks) sn = Except.error e := by
      cases sn with
      | none => exact ⟨_, rfl⟩
      | some n =>
        unfold User.modify_step_by_name
        dsimp only
        by_cases hn2 : n = ""
        · rw [if_pos hn2]
          exact ⟨_, rfl⟩
        · rcases hname n rfl with hn | hno
          · exact absurd hn hn2
          · rw [if_neg hn2, replaceByName_eq_none u.steps n (Step.make nsn tasks) hno]
            exact ⟨_, rfl⟩
    obtain ⟨e, he⟩ : ∃ e,
        u.modify_step (Step.make nsn tasks) sn idx = Except.error e := by
      cases idx with
      | none => exact hby
      | some i =>
        unfold User.modify_step
        dsimp only
        rw [dif_neg (hidx i rfl)]
        exact hby
    unfold flow_modify_step
    dsimp only
    rw [he]
    exact ⟨rfl, rfl⟩

/-- C9 witness: failing mutations at concrete inputs leave the witness
user untouched. -/
theorem failing_mutations_witness :
    (¬ (0 ≤ (5 : Int) ∧ (5 : Int) ≤ (c5w_user.steps.length : Int))) ∧
    (flow_add_step c5w_user "C" none (some 5)).1.2 = 400 ∧
    (flow_add_step c5w_user "C" none (some 5)).2 = c5w_user ∧
    (flow_remove_step c5w_user none (some (-1))).1.2 = 400 ∧
    (flow_remove_step c5w_user none (some (-1))).2 = c5w_user ∧
    (flow_modify_step c5w_user "D" (some "Z") none none).1.2 = 400 ∧
    (flow_modify_step c5w_user "D" (some "Z") none none).2 = c5w_user :=
  ⟨by decide,
   (failing_mutations_leave_state_unchanged.1 c5w_user "C" none 5
     (by decide)).1,
   (failing_mutations_leave_state_unchanged.1 c5w_user "C" none 5
     (by decide)).2,
   (failing_mutations_leave_state_unchanged.2.1 c5w_user none (some (-1))
     (fun i h => by cases h; decide) (fun n h => nomatch h)).1,
   (failing_mutations_leave_state_unchanged.2.1 c5w_user none (some (-1))
     (fun i h => by cases h; decide) (fun n h => nomatch h)).2,
   (failing_mutations_leave_state_unchanged.2.2 c5w_user "D" (some "Z")
     none none (fun i h => nomatch h)
     (fun n h => by cases h; exact Or.inr (by decide))).1,
   (failing_mutations_leave_state_unchanged.2.2 c5w_user "D" (some "Z")
     none none (fun i h => nomatch h)
     (fun n h => by cases h; exact Or.inr (by decide))).2⟩

end Admissions
